import Mathlib

/-!
Verification of the smart-meter simulation system (src/app.py).

The development shallowly embeds the SmartMeterSystem class: the simulated
clock, reading synthesis with its maintenance window, the daily archive,
the monthly ledger rollup and the retention cleanup.  Python datetimes are
modelled at minute precision (every timestamp the system manipulates has
second = microsecond = 0: the epoch is 2024-05-01T00:00 and all advances
add whole minutes).  Python floats are modelled as rationals; the pseudo
random increments drawn by random.uniform(0, 1) are modelled as an oracle
function carried in the state together with a draw counter, so that a run
is deterministic given the oracle.  Python dicts are modelled as
association lists with insertion-ordered keys (updating an existing key
keeps its position, a new key is appended), matching dict iteration order.
-/

namespace SmartMeter

/-! ## Calendar arithmetic (proleptic Gregorian, as Python datetime/calendar) -/

/-- Gregorian leap-year test, as used by calendar.monthrange. -/
def isLeap (y : Nat) : Bool :=
  y % 4 == 0 && (y % 100 != 0 || y % 400 == 0)

/-- Number of days of month m (1..12) of year y: calendar.monthrange(y, m)[1]. -/
def daysInMonth (y m : Nat) : Nat :=
  if m = 2 then (if isLeap y then 29 else 28)
  else if m = 4 ∨ m = 6 ∨ m = 9 ∨ m = 11 then 30
  else 31

/-- Days in year y strictly before month m. -/
def daysBeforeMonth (y m : Nat) : Nat :=
  (List.range (m - 1)).foldl (fun acc i => acc + daysInMonth y (i + 1)) 0

/-- Proleptic Gregorian day number of (y, m, d): day 1 is 0001-01-01. -/
def rataDie (y m d : Nat) : Nat :=
  365 * (y - 1) + (y - 1) / 4 - (y - 1) / 100 + (y - 1) / 400 + daysBeforeMonth y m + d

/-- A Python datetime at minute precision. -/
structure DateTime where
  year : Nat
  month : Nat
  day : Nat
  hour : Nat
  minute : Nat
  deriving DecidableEq, Repr

/-- Absolute minute count of a datetime (minutes since the day before 0001-01-01
at 00:00).  Two valid datetimes compare, as Python datetimes do, by this value. -/
def absMin (t : DateTime) : Nat :=
  1440 * rataDie t.year t.month t.day + 60 * t.hour + t.minute

/-- Python datetime order (valid datetimes). -/
def dtLe (a b : DateTime) : Bool := absMin a ≤ absMin b

def dtLt (a b : DateTime) : Bool := absMin a < absMin b

/-- Python min of two datetimes (min returns the first argument on ties). -/
def dtMin (a b : DateTime) : DateTime := if dtLe a b then a else b

/-- Successor calendar day (time of day unchanged). -/
def nextDay (t : DateTime) : DateTime :=
  if t.day < daysInMonth t.year t.month then { t with day := t.day + 1 }
  else if t.month < 12 then { t with month := t.month + 1, day := 1 }
  else { t with year := t.year + 1, month := 1, day := 1 }

/-- Predecessor calendar day (time of day unchanged). -/
def prevDay (t : DateTime) : DateTime :=
  if 1 < t.day then { t with day := t.day - 1 }
  else if 1 < t.month then
    { t with month := t.month - 1, day := daysInMonth t.year (t.month - 1) }
  else { t with year := t.year - 1, month := 12, day := daysInMonth (t.year - 1) 12 }

/-- Add n calendar days. -/
def addDaysN (t : DateTime) : Nat → DateTime
  | 0 => t
  | n + 1 => nextDay (addDaysN t n)

/-- Subtract n calendar days. -/
def subDaysN (t : DateTime) : Nat → DateTime
  | 0 => t
  | n + 1 => prevDay (subDaysN t n)

/-- datetime + timedelta(minutes=v), for a possibly negative v.  The minute
total of the day is split with floor division, exactly as the timedelta
arithmetic on a datetime behaves. -/
def addMinutesInt (t : DateTime) (v : Int) : DateTime :=
  let total : Int := (60 * t.hour + t.minute : Nat) + v
  let d : Int := total.fdiv 1440
  let r : Nat := (total.fmod 1440).toNat
  let base : DateTime := { t with hour := r / 60, minute := r % 60 }
  if 0 ≤ d then addDaysN base d.toNat else subDaysN base (-d).toNat

/-- datetime.replace(minute=0, second=0, microsecond=0). -/
def floorHour (t : DateTime) : DateTime := { t with minute := 0 }

/-- The simulation epoch 2024-05-01T00:00. -/
def epoch : DateTime := ⟨2024, 5, 1, 0, 0⟩

/-! ## Association lists with Python-dict key semantics -/

/-- Lookup in an insertion-ordered association list. -/
def alookup {β : Type} : List (String × β) → String → Option β
  | [], _ => none
  | (k', v) :: t, k => if k' = k then some v else alookup t k

/-- Update: an existing key keeps its position, a new key is appended at the
end, as Python dict assignment behaves. -/
def aset {β : Type} : List (String × β) → String → β → List (String × β)
  | [], k, v => [(k, v)]
  | (k', v') :: t, k, v => if k' = k then (k, v) :: t else (k', v') :: aset t k v

/-- Floor of a rational, computed on the numerator and denominator so that
it evaluates by kernel reduction. -/
def ratFloor (x : ℚ) : ℤ := Int.fdiv x.num x.den

/-- Rounding to 3 decimal places: round(x, 3).  Exact ties (which round half
to even on Python floats) do not arise in any property below. -/
def round3 (x : ℚ) : ℚ := (ratFloor (x * 1000 + 1 / 2) : ℚ) / 1000

/-! ## Data model -/

/-- A registered account, as stored in all_account.json. -/
structure Account where
  meter_ID : String
  area : String
  dwelling : String
  register_time : DateTime
  deriving DecidableEq, Repr

/-- The MeterReading dataclass (reading_time is an ISO timestamp string in the
source; it round-trips with the datetime it denotes). -/
structure MeterReading where
  meter_id : String
  reading_time : DateTime
  meter_value : ℚ
  deriving DecidableEq, Repr

/-- One (time-of-day, value) pair of a daily archive file, the strftime
%H:%M time kept as an (hour, minute) pair. -/
structure TimedValue where
  hour : Nat
  minute : Nat
  value : ℚ
  deriving DecidableEq, Repr

/-- The per-meter object of a daily archive file: a %Y-%m-%d date string and
the list of readings. -/
structure DayMeterEntry where
  date : Nat × Nat × Nat
  readings : List TimedValue
  deriving DecidableEq, Repr

/-- A daily archive file readings_YYYYMMDD.json: a JSON object keyed by
meter id. -/
abbrev DailyFile : Type := List (String × DayMeterEntry)

/-- Error kinds raised by the system (the ValueError messages of the source). -/
inductive Err where
  | NoAccounts
  | InvalidUnit
  | DuplicateMeterId
  deriving DecidableEq, Repr

/-- The whole system state: the persisted clock, the persisted account list,
the in-memory latest_readings and daily_cache, the daily archive files keyed
by (year, month, day), the monthly ledger month_readings.json keyed by meter
id then by (year, month), and the random oracle with its draw counter. -/
structure State where
  clock : DateTime
  accounts : List Account
  latest_readings : List (String × ℚ)
  daily_cache : List MeterReading
  dailyArchive : List ((Nat × Nat × Nat) × DailyFile)
  monthlyData : List (String × List ((Nat × Nat) × ℚ))
  rand : Nat → ℚ
  randIdx : Nat

/-- Lookup of a daily archive file by its (year, month, day) key. -/
def dlookup : List ((Nat × Nat × Nat) × DailyFile) → (Nat × Nat × Nat) → Option DailyFile
  | [], _ => none
  | (k', v) :: t, k => if k' = k then some v else dlookup t k

/-- Update of a daily archive file (json.dump overwrites the file). -/
def dset : List ((Nat × Nat × Nat) × DailyFile) → (Nat × Nat × Nat) → DailyFile →
    List ((Nat × Nat × Nat) × DailyFile)
  | [], k, v => [(k, v)]
  | (k', v') :: t, k, v => if k' = k then (k, v) :: t else (k', v') :: dset t k v

/-- Lookup in the (year, month)-keyed map of one meter of the monthly ledger. -/
def mlookup : List ((Nat × Nat) × ℚ) → (Nat × Nat) → Option ℚ
  | [], _ => none
  | (k', v) :: t, k => if k' = k then some v else mlookup t k

/-- Update in the (year, month)-keyed map of one meter of the monthly ledger. -/
def mset : List ((Nat × Nat) × ℚ) → (Nat × Nat) → ℚ → List ((Nat × Nat) × ℚ)
  | [], k, v => [(k, v)]
  | (k', v') :: t, k, v => if k' = k then (k, v) :: t else (k', v') :: mset t k v

/-- Value of the monthly ledger at (meter, (year, month)), if recorded. -/
def monthlyLookup (md : List (String × List ((Nat × Nat) × ℚ))) (meter : String)
    (ym : Nat × Nat) : Option ℚ :=
  match alookup md meter with
  | none => none
  | some m => mlookup m ym

/-! ## Stable sorting (Python sorted) -/

/-- Insert x after every already placed element le-below-or-equal to it. -/
def insertSorted {α : Type} (le : α → α → Bool) (x : α) : List α → List α
  | [] => [x]
  | y :: t => if le y x then y :: insertSorted le x t else x :: y :: t

/-- Stable insertion sort, matching the stability of Python sorted. -/
def sortBy {α : Type} (le : α → α → Bool) (l : List α) : List α :=
  l.foldl (fun acc x => insertSorted le x acc) []

/-- Order on readings by the %H:%M time string; the strings are zero padded
so string order is the lexicographic (hour, minute) order. -/
def timeLe (a b : TimedValue) : Bool :=
  a.hour < b.hour || (a.hour == b.hour && a.minute ≤ b.minute)

/-! ## SmartMeterSystem operations -/

/-- SmartMeterSystem.register_meter. -/
def register_meter (s : State) (meter_id area dwelling : String) :
    State × Except Err Account :=
  if s.accounts.any (fun a => a.meter_ID == meter_id) then (s, .error .DuplicateMeterId)
  else
    let current_time := s.clock
    let account : Account := ⟨meter_id, area, dwelling, current_time⟩
    let reading : MeterReading := ⟨meter_id, current_time, 0⟩
    ({ s with accounts := s.accounts ++ [account],
              latest_readings := aset s.latest_readings meter_id 0,
              daily_cache := s.daily_cache ++ [reading] }, .ok account)

/-- SmartMeterSystem._calculate_next_time.  The months arm mirrors the
Python source: floor division and floor modulus of next_month - 1 by 12,
then the day clamped by calendar.monthrange. -/
def calculate_next_time (current_time : DateTime) (increment_unit : String)
    (increment_value : Int) : Except Err DateTime :=
  if increment_unit = "minutes" then .ok (addMinutesInt current_time increment_value)
  else if increment_unit = "hours" then .ok (addMinutesInt current_time (60 * increment_value))
  else if increment_unit = "days" then .ok (addMinutesInt current_time (1440 * increment_value))
  else if increment_unit = "months" then
    let nm : Int := (current_time.month : Int) + increment_value
    let next_year : Int := (current_time.year : Int) + (nm - 1).fdiv 12
    let next_month : Int := (nm - 1).fmod 12 + 1
    let last_day := daysInMonth next_year.toNat next_month.toNat
    .ok { year := next_year.toNat, month := next_month.toNat,
          day := min current_time.day last_day,
          hour := current_time.hour, minute := current_time.minute }
  else .error .InvalidUnit

/-- The archive image of one cached reading: its %H:%M time of day and its
value rounded to 3 decimals. -/
def toTimedValue (r : MeterReading) : TimedValue :=
  ⟨r.reading_time.hour, r.reading_time.minute, round3 r.meter_value⟩

/-- One iteration of the grouping loop of _process_daily_data: append the
reading to its meter's object, creating the object — dated with the single
supplied date — when the meter is new. -/
def buildStep (current_date : DateTime) (acc : DailyFile) (r : MeterReading) :
    DailyFile :=
  match alookup acc r.meter_id with
  | none => acc ++ [(r.meter_id,
      { date := (current_date.year, current_date.month, current_date.day),
        readings := [toTimedValue r] })]
  | some e => aset acc r.meter_id { e with readings := e.readings ++ [toTimedValue r] }

/-- The grouping loop of _process_daily_data: fold the cache into a JSON
object keyed by meter id, the date field taken from the single supplied
date. -/
def buildDaily (cache : List MeterReading) (current_date : DateTime) : DailyFile :=
  cache.foldl (buildStep current_date) []

/-- SmartMeterSystem._process_daily_data: no-op on an empty cache, else the
whole cache is written (overwriting) to the file of the supplied date and
the cache is cleared. -/
def process_daily_data (s : State) (current_date : DateTime) : State :=
  if s.daily_cache = [] then s
  else
    { s with
      dailyArchive := dset s.dailyArchive
        (current_date.year, current_date.month, current_date.day)
        (buildDaily s.daily_cache current_date),
      daily_cache := [] }

/-- SmartMeterSystem._cleanup_old_readings: delete every month directory
whose first day is before last_month_first. -/
def cleanup_old_readings (s : State) (last_month_first : DateTime) : State :=
  let keep := fun (e : (Nat × Nat × Nat) × DailyFile) =>
    !(dtLt ⟨e.1.1, e.1.2.1, 1, 0, 0⟩ last_month_first)
  { s with dailyArchive := s.dailyArchive.filter keep }

/-- The daily archive files of one month directory in sorted listdir order:
the filenames readings_YYYYMMDD.json sort by day. -/
def monthFiles (archive : List ((Nat × Nat × Nat) × DailyFile)) (y m : Nat) :
    List ((Nat × Nat × Nat) × DailyFile) :=
  sortBy (fun a b => a.1.2.2 ≤ b.1.2.2)
    (archive.filter (fun e => e.1.1 == y && e.1.2.1 == m))

/-- The first day of the month before the month of current_date:
current_date.replace(day=1) minus one day, then replace(day=1). -/
def last_month_first_of (current_date : DateTime) : DateTime :=
  let first_of_current : DateTime := { current_date with day := 1, hour := 0, minute := 0 }
  let last_month := addMinutesInt first_of_current (-1440)
  { last_month with day := 1 }

/-- The horizon month to archive: the first day of the month two months
before the month of current_date. -/
def month_to_process_of (current_date : DateTime) : DateTime :=
  let month_to_process0 := addMinutesInt (last_month_first_of current_date) (-1440)
  { month_to_process0 with day := 1 }

/-- The per-meter-object body of the aggregation loop of
_archive_and_prepare_monthly_data: sort the readings of the meter by time,
record the first value if the meter is new to first_readings, and overwrite
last_readings with the last value.  A meter entry with an empty readings
list never occurs in a file the system writes (Python would raise
IndexError on readings[0]); the fold yields a dummy 0 there. -/
def entryStep (fl2 : (List (String × ℚ)) × (List (String × ℚ)))
    (entry : String × DayMeterEntry) : (List (String × ℚ)) × (List (String × ℚ)) :=
  let readings := sortBy timeLe entry.2.readings
  let fm := match alookup fl2.1 entry.1 with
    | some _ => fl2.1
    | none => aset fl2.1 entry.1 ((readings.headD ⟨0, 0, 0⟩).value)
  let lm := aset fl2.2 entry.1 ((readings.getLastD ⟨0, 0, 0⟩).value)
  (fm, lm)

/-- The aggregation loop over one daily file. -/
def collectFirstLastFile (fl : (List (String × ℚ)) × (List (String × ℚ)))
    (file : DailyFile) : (List (String × ℚ)) × (List (String × ℚ)) :=
  file.foldl entryStep fl

/-- The aggregation loop over all daily files of the horizon month, in
sorted order: the resulting maps are first_readings and last_readings. -/
def collectFirstLast (files : List ((Nat × Nat × Nat) × DailyFile)) :
    (List (String × ℚ)) × (List (String × ℚ)) :=
  files.foldl (fun fl file => collectFirstLastFile fl file.2) ([], [])

/-- The body of the ledger-update loop of
_archive_and_prepare_monthly_data: merge one meter's net consumption under
the horizon month key. -/
def monthlyStep (lasts : List (String × ℚ)) (month_key : Nat × Nat)
    (md : List (String × List ((Nat × Nat) × ℚ))) (p : String × ℚ) :
    List (String × List ((Nat × Nat) × ℚ)) :=
  match alookup lasts p.1 with
  | some lv =>
      let mm := (alookup md p.1).getD []
      aset md p.1 (mset mm month_key (round3 (lv - p.2)))
  | none => md

/-- SmartMeterSystem._archive_and_prepare_monthly_data. -/
def archive_and_prepare_monthly_data (s : State) (current_date : DateTime) : State :=
  let last_month_first := last_month_first_of current_date
  let month_to_process := month_to_process_of current_date
  if dtLt month_to_process epoch then s
  else
    let files := monthFiles s.dailyArchive month_to_process.year month_to_process.month
    let fl := collectFirstLast files
    let month_key := (month_to_process.year, month_to_process.month)
    let monthly := fl.1.foldl (monthlyStep fl.2 month_key) s.monthlyData
    cleanup_old_readings { s with monthlyData := monthly } last_month_first

/-- The readings a daily file holds for one meter, in time order; empty
when the meter has no object in the file. -/
def entryContribution (file : DailyFile) (meter : String) : List TimedValue :=
  match alookup file meter with
  | some e => sortBy timeLe e.readings
  | none => []

/-- Modelled from the spec's words (chronologically-first and
chronologically-last reading of the month): the chronological sequence of
one meter's readings over a list of daily files — files in day order, and
within each file the meter's readings in time-of-day order. -/
def chronoOfFiles : List ((Nat × Nat × Nat) × DailyFile) → String → List TimedValue
  | [], _ => []
  | f :: rest, meter => entryContribution f.2 meter ++ chronoOfFiles rest meter

/-- The chronological readings of one meter in month (y, m) of the daily
archive. -/
def monthReadingsOf (archive : List ((Nat × Nat × Nat) × DailyFile)) (y m : Nat)
    (meter : String) : List TimedValue :=
  chronoOfFiles (monthFiles archive y m) meter

/-- The per-account body of the sampling loop of _generate_readings: the
previous value is latest_readings.get(meter_ID, 0), the increment is the
next oracle draw, latest_readings stores the unrounded new value, while the
emitted reading and the cache entry carry the value rounded to 3 decimals. -/
def meterStep (reading_time : DateTime) (st : State) (account : Account) :
    State × MeterReading :=
  let previous_value := (alookup st.latest_readings account.meter_ID).getD 0
  let increment := st.rand st.randIdx
  let meter_value := previous_value + increment
  let r : MeterReading := ⟨account.meter_ID, reading_time, round3 meter_value⟩
  ({ st with latest_readings := aset st.latest_readings account.meter_ID meter_value,
             randIdx := st.randIdx + 1,
             daily_cache := st.daily_cache ++ [r] }, r)

/-- The maintenance branch of the sampling loop of _generate_readings: when
the loop stands at hour 0, the previous day (current minus one minute) is
flushed provided its date is at or after the epoch date, and the monthly
archiver runs when the day is the 1st. -/
def maintenanceState (s : State) (current : DateTime) : State :=
  let process_date := addMinutesInt current (-1)
  let s1 :=
    if dtLe epoch ⟨process_date.year, process_date.month, process_date.day, 0, 0⟩
    then process_daily_data s process_date else s
  if current.day = 1 then archive_and_prepare_monthly_data s1 current else s1

/-- One step of the per-account sampling loop: run meterStep and append the
emitted reading. -/
def sampleStep (reading_time : DateTime) (acc : State × List MeterReading)
    (account : Account) : State × List MeterReading :=
  let sr := meterStep reading_time acc.1 account
  (sr.1, acc.2 ++ [sr.2])

/-- The for-loop of _generate_readings over all accounts at one sampling
instant. -/
def sampleAccounts (reading_time : DateTime) (s : State) (accounts : List Account) :
    State × List MeterReading :=
  accounts.foldl (sampleStep reading_time) (s, [])

/-- The while loop of _generate_readings (after the floor to the hour), with
explicit fuel; one unit of fuel per iteration.  In the maintenance branch
the loop resumes at hour 1 of the same day; sampling emits at current plus
30 minutes and stops when that instant passes next_time or enters the
maintenance window. -/
def genLoop : Nat → State → DateTime → DateTime → List Account →
    State × List MeterReading
  | 0, s, _, _, _ => (s, [])
  | fuel + 1, s, current, next_time, accounts =>
    if ¬ dtLe current next_time then (s, [])
    else if current.hour = 0 then
      genLoop fuel (maintenanceState s current) { current with hour := 1 }
        next_time accounts
    else
      let reading_time := addMinutesInt current 30
      if ¬ dtLe reading_time next_time ∨ reading_time.hour = 0 then (s, [])
      else
        let step := sampleAccounts reading_time s accounts
        let rest := genLoop fuel step.1 reading_time next_time accounts
        (rest.1, step.2 ++ rest.2)

/-- The single-day body of _generate_readings: floor the start to the hour,
run the sampling loop, then flush the cache (if any) under the date of its
last reading. -/
def generate_one_day (fuel : Nat) (s : State) (current_time next_time : DateTime)
    (accounts : List Account) : State × List MeterReading :=
  let r := genLoop fuel s (floorHour current_time) next_time accounts
  let s2 := match r.1.daily_cache.getLast? with
    | some last => process_daily_data r.1 last.reading_time
    | none => r.1
  (s2, r.2)

/-- The added day-splitting loop of _generate_readings for spans above one
day.  Each sub-call spans at most 1440 minutes, so the recursive call to
_generate_readings takes its single-day branch, embedded here directly as
generate_one_day.  The split branch returns without a trailing flush (the
source returns early inside the if). -/
def splitLoop : Nat → State → DateTime → DateTime → List Account →
    State × List MeterReading
  | 0, s, _, _, _ => (s, [])
  | fuel + 1, s, temp_current, next_time, accounts =>
    if dtLt temp_current next_time then
      let day_end := dtMin (addMinutesInt temp_current 1440) next_time
      let r1 := generate_one_day fuel s temp_current day_end accounts
      let r2 := splitLoop fuel r1.1 (addMinutesInt temp_current 1440) next_time accounts
      (r2.1, r1.2 ++ r2.2)
    else (s, [])

/-- SmartMeterSystem._generate_readings: spans strictly above 86400 seconds
are decomposed day by day, else the single-day body runs. -/
def generate_readings (fuel : Nat) (s : State) (current_time next_time : DateTime)
    (accounts : List Account) : State × List MeterReading :=
  if 1440 < (absMin next_time : Int) - (absMin current_time : Int) then
    splitLoop fuel s current_time next_time accounts
  else generate_one_day fuel s current_time next_time accounts

/-- The day-by-day loop of collect_readings for the months unit. -/
def monthsLoop : Nat → State → DateTime → DateTime → List Account →
    State × List MeterReading
  | 0, s, _, _, _ => (s, [])
  | fuel + 1, s, temp_current, next_time, accounts =>
    if dtLt temp_current next_time then
      let r1 := generate_readings fuel s temp_current
        (dtMin (addMinutesInt temp_current 1440) next_time) accounts
      let r2 := monthsLoop fuel r1.1 (addMinutesInt temp_current 1440) next_time accounts
      (r2.1, r1.2 ++ r2.2)
    else (s, [])

/-- The result dictionary of collect_readings (the message string omitted). -/
structure CollectResult where
  readings_count : Nat
  sample_readings : List MeterReading
  new_time : DateTime
  deriving DecidableEq, Repr

/-- SmartMeterSystem.collect_readings: fail on an empty account list, compute
the next time (failing on an unknown unit), generate the readings (day by
day for the months unit), then persist the new clock. -/
def collect_readings (fuel : Nat) (s : State) (increment_unit : String)
    (increment_value : Int) : State × Except Err CollectResult :=
  if s.accounts = [] then (s, .error .NoAccounts)
  else
    let current_time := s.clock
    match calculate_next_time current_time increment_unit increment_value with
    | .error e => (s, .error e)
    | .ok next_time =>
      let r :=
        if increment_unit = "months" then monthsLoop fuel s current_time next_time s.accounts
        else generate_readings fuel s current_time next_time s.accounts
      ({ r.1 with clock := next_time },
       .ok { readings_count := r.2.length,
             sample_readings := r.2.take 3,
             new_time := next_time })

/-- A fresh system: epoch clock, no accounts, empty caches and archives. -/
def initState (rand : Nat → ℚ) : State :=
  ⟨epoch, [], [], [], [], [], rand, 0⟩

/-- Apply a sequence of advance requests, keeping only the state. -/
def advanceOps (fuel : Nat) (s : State) (ops : List (String × Int)) : State :=
  ops.foldl (fun st op => (collect_readings fuel st op.1 op.2).1) s

/-! ## Concrete scenarios -/

/-- A concrete random oracle: every draw is 1/2 (inside the uniform(0, 1)
range). -/
def halfOracle : Nat → ℚ := fun _ => 1 / 2

/-- The fresh system with a single meter A registered at the epoch. -/
def regState : State := (register_meter (initState halfOracle) "A" "AreaA" "HDB").1

/-- The pending cache of C3's counterexample: two readings of meter A whose
timestamps lie on two distinct calendar days. -/
def c3state : State :=
  { initState halfOracle with daily_cache :=
      [⟨"A", ⟨2024, 5, 1, 10, 30⟩, 5⟩, ⟨"A", ⟨2024, 5, 2, 11, 0⟩, 6⟩] }

/-- The advance sequence of C5's failing input: one advance to 23:30 of the
epoch day, then 62 one-day advances of 24 hours each, crossing from May
into June and from June into July with a clock that never lands on a
midnight, so the monthly archiver (and with it the retention pruning) never
runs. -/
def c5ops : List (String × Int) := ("minutes", 1410) :: List.replicate 62 ("hours", 24)

/-- The state reached by C5's failing input. -/
def c5state : State := advanceOps 200 regState c5ops

/-- A state whose latest value map knows meter A but not meter B. -/
def c10state : State := { initState halfOracle with latest_readings := [("A", 7)] }

/-- The LatestValue of a meter: latest_readings.get(m, 0), the view the
synthesizer itself takes of the map. -/
def latestOf (s : State) (m : String) : ℚ := (alookup s.latest_readings m).getD 0

end SmartMeter

namespace SmartMeter

/-! ## Association list lemmas -/

theorem alookup_aset_self {β : Type} (l : List (String × β)) (k : String) (v : β) :
    alookup (aset l k v) k = some v := by
  induction l with
  | nil => simp [aset, alookup]
  | cons h t ih =>
    obtain ⟨a, b⟩ := h
    by_cases hk : a = k
    · subst hk
      simp [aset, alookup]
    · simpa [aset, alookup, hk] using ih

theorem alookup_aset_ne {β : Type} (l : List (String × β)) (k k' : String) (v : β)
    (hne : k' ≠ k) : alookup (aset l k v) k' = alookup l k' := by
  induction l with
  | nil => simp [aset, alookup, Ne.symm hne]
  | cons h t ih =>
    obtain ⟨a, b⟩ := h
    by_cases hk : a = k
    · subst hk
      simp [aset, alookup, Ne.symm hne]
    · by_cases hk' : a = k'
      · simp [aset, alookup, hk, hk', hne]
      · simpa [aset, alookup, hk, hk'] using ih

theorem mlookup_mset_self (l : List ((Nat × Nat) × ℚ)) (k : Nat × Nat) (v : ℚ) :
    mlookup (mset l k v) k = some v := by
  induction l with
  | nil => simp [mset, mlookup]
  | cons h t ih =>
    obtain ⟨a, b⟩ := h
    by_cases hk : a = k
    · subst hk
      simp [mset, mlookup]
    · simpa [mset, mlookup, hk] using ih

theorem mlookup_mset_ne (l : List ((Nat × Nat) × ℚ)) (k k' : Nat × Nat) (v : ℚ)
    (hne : k' ≠ k) : mlookup (mset l k v) k' = mlookup l k' := by
  induction l with
  | nil => simp [mset, mlookup, Ne.symm hne]
  | cons h t ih =>
    obtain ⟨a, b⟩ := h
    by_cases hk : a = k
    · subst hk
      simp [mset, mlookup, Ne.symm hne]
    · by_cases hk' : a = k'
      · simp [mset, mlookup, hk, hk', hne]
      · simpa [mset, mlookup, hk, hk'] using ih

/-! ## Field preservation through the archival operations -/

/-- The state fields the archival operations never touch, bundled. -/
def coreFields (s : State) :
    List (String × ℚ) × (Nat → ℚ) × Nat × DateTime × List Account :=
  (s.latest_readings, s.rand, s.randIdx, s.clock, s.accounts)

theorem coreFields_process (s : State) (d : DateTime) :
    coreFields (process_daily_data s d) = coreFields s := by
  unfold process_daily_data
  split <;> rfl

theorem coreFields_archive (s : State) (d : DateTime) :
    coreFields (archive_and_prepare_monthly_data s d) = coreFields s := by
  unfold archive_and_prepare_monthly_data cleanup_old_readings
  dsimp only
  split <;> rfl

theorem coreFields_maintenance (s : State) (c : DateTime) :
    coreFields (maintenanceState s c) = coreFields s := by
  unfold maintenanceState
  dsimp only
  split <;> split <;> simp [coreFields_archive, coreFields_process]

theorem latest_of_coreFields {s t : State} (h : coreFields s = coreFields t) :
    s.latest_readings = t.latest_readings := congrArg Prod.fst h

theorem rand_of_coreFields {s t : State} (h : coreFields s = coreFields t) :
    s.rand = t.rand := congrArg (fun p => p.2.1) h

theorem cache_process (s : State) (d : DateTime) :
    (process_daily_data s d).daily_cache = [] ∨
    (process_daily_data s d).daily_cache = s.daily_cache := by
  unfold process_daily_data
  split
  · right
    rfl
  · left
    rfl

theorem cache_archive (s : State) (d : DateTime) :
    (archive_and_prepare_monthly_data s d).daily_cache = s.daily_cache := by
  unfold archive_and_prepare_monthly_data cleanup_old_readings
  dsimp only
  split <;> rfl

/-! ## Monotonicity of the latest value map -/

theorem latestOf_congr {s t : State} (m : String)
    (h : s.latest_readings = t.latest_readings) : latestOf s m = latestOf t m := by
  unfold latestOf
  rw [h]

theorem meterStep_latest_mono (rt : DateTime) (st : State) (a : Account) (m : String)
    (h : 0 ≤ st.rand st.randIdx) :
    latestOf st m ≤ latestOf (meterStep rt st a).1 m := by
  unfold latestOf meterStep
  dsimp only
  by_cases hm : a.meter_ID = m
  · subst hm
    rw [alookup_aset_self]
    exact le_add_of_nonneg_right h
  · rw [alookup_aset_ne _ _ _ _ (fun hh => hm hh.symm)]

theorem sampleFold_rand (rt : DateTime) (accs : List Account) :
    ∀ init : State × List MeterReading,
      (accs.foldl (sampleStep rt) init).1.rand = init.1.rand := by
  induction accs with
  | nil => intro init; rfl
  | cons a t ih =>
    intro init
    rw [List.foldl_cons, ih]
    rfl

theorem sampleFold_latest_mono (rt : DateTime) (accs : List Account) (m : String) :
    ∀ init : State × List MeterReading, (∀ n, 0 ≤ init.1.rand n) →
      latestOf init.1 m ≤ latestOf (accs.foldl (sampleStep rt) init).1 m := by
  induction accs with
  | nil => intro init _; exact le_rfl
  | cons a t ih =>
    intro init h
    rw [List.foldl_cons]
    refine le_trans (meterStep_latest_mono rt init.1 a m (h _)) ?_
    exact ih (sampleStep rt init a) h

theorem genLoop_rand_latest (fuel : Nat) :
    ∀ (s : State) (current next : DateTime) (accs : List Account) (m : String),
      (∀ n, 0 ≤ s.rand n) →
      ((genLoop fuel s current next accs).1.rand = s.rand ∧
       latestOf s m ≤ latestOf (genLoop fuel s current next accs).1 m) := by
  induction fuel with
  | zero => intro s c n a m _; exact ⟨rfl, le_rfl⟩
  | succ fuel ih =>
    intro s c n a m h
    rw [genLoop]
    split
    · exact ⟨rfl, le_rfl⟩
    split
    · have hc := coreFields_maintenance s c
      have hrand := rand_of_coreFields hc
      have hlat := latest_of_coreFields hc
      have ih' := ih (maintenanceState s c) { c with hour := 1 } n a m
        (by intro k; rw [hrand]; exact h k)
      refine ⟨by rw [ih'.1, hrand], ?_⟩
      calc latestOf s m = latestOf (maintenanceState s c) m :=
            (latestOf_congr m hlat).symm
        _ ≤ _ := ih'.2
    dsimp only
    split
    · exact ⟨rfl, le_rfl⟩
    · have hsr : (sampleAccounts (addMinutesInt c 30) s a).1.rand = s.rand :=
        sampleFold_rand _ a (s, [])
      have hsm : latestOf s m ≤ latestOf (sampleAccounts (addMinutesInt c 30) s a).1 m :=
        sampleFold_latest_mono _ a m (s, []) h
      have ih' := ih (sampleAccounts (addMinutesInt c 30) s a).1 (addMinutesInt c 30) n a m
        (by intro k; rw [hsr]; exact h k)
      exact ⟨by rw [ih'.1, hsr], le_trans hsm ih'.2⟩

theorem one_day_rand_latest (fuel : Nat) (s : State) (a b : DateTime)
    (accs : List Account) (m : String) (h : ∀ n, 0 ≤ s.rand n) :
    ((generate_one_day fuel s a b accs).1.rand = s.rand ∧
     latestOf s m ≤ latestOf (generate_one_day fuel s a b accs).1 m) := by
  unfold generate_one_day
  dsimp only
  have hg := genLoop_rand_latest fuel s (floorHour a) b accs m h
  split
  · next last heq =>
    have hc := coreFields_process (genLoop fuel s (floorHour a) b accs).1 last.reading_time
    refine ⟨by rw [rand_of_coreFields hc, hg.1], ?_⟩
    calc latestOf s m ≤ latestOf (genLoop fuel s (floorHour a) b accs).1 m := hg.2
      _ = _ := (latestOf_congr m (latest_of_coreFields hc)).symm
  · exact hg

theorem splitLoop_rand_latest (fuel : Nat) :
    ∀ (s : State) (a b : DateTime) (accs : List Account) (m : String),
      (∀ n, 0 ≤ s.rand n) →
      ((splitLoop fuel s a b accs).1.rand = s.rand ∧
       latestOf s m ≤ latestOf (splitLoop fuel s a b accs).1 m) := by
  induction fuel with
  | zero => intro s a b accs m _; exact ⟨rfl, le_rfl⟩
  | succ fuel ih =>
    intro s a b accs m h
    rw [splitLoop]
    split
    · dsimp only
      have h1 := one_day_rand_latest fuel s a (dtMin (addMinutesInt a 1440) b) accs m h
      have ih' := ih (generate_one_day fuel s a (dtMin (addMinutesInt a 1440) b) accs).1
        (addMinutesInt a 1440) b accs m (by intro k; rw [h1.1]; exact h k)
      exact ⟨by rw [ih'.1, h1.1], le_trans h1.2 ih'.2⟩
    · exact ⟨rfl, le_rfl⟩

theorem generate_rand_latest (fuel : Nat) (s : State) (a b : DateTime)
    (accs : List Account) (m : String) (h : ∀ n, 0 ≤ s.rand n) :
    ((generate_readings fuel s a b accs).1.rand = s.rand ∧
     latestOf s m ≤ latestOf (generate_readings fuel s a b accs).1 m) := by
  unfold generate_readings
  split
  · exact splitLoop_rand_latest fuel s a b accs m h
  · exact one_day_rand_latest fuel s a b accs m h

theorem monthsLoop_rand_latest (fuel : Nat) :
    ∀ (s : State) (a b : DateTime) (accs : List Account) (m : String),
      (∀ n, 0 ≤ s.rand n) →
      ((monthsLoop fuel s a b accs).1.rand = s.rand ∧
       latestOf s m ≤ latestOf (monthsLoop fuel s a b accs).1 m) := by
  induction fuel with
  | zero => intro s a b accs m _; exact ⟨rfl, le_rfl⟩
  | succ fuel ih =>
    intro s a b accs m h
    rw [monthsLoop]
    split
    · dsimp only
      have h1 := generate_rand_latest fuel s a (dtMin (addMinutesInt a 1440) b) accs m h
      have ih' := ih (generate_readings fuel s a (dtMin (addMinutesInt a 1440) b) accs).1
        (addMinutesInt a 1440) b accs m (by intro k; rw [h1.1]; exact h k)
      exact ⟨by rw [ih'.1, h1.1], le_trans h1.2 ih'.2⟩
    · exact ⟨rfl, le_rfl⟩

theorem collect_rand_latest (fuel : Nat) (s : State) (u : String) (v : Int) (m : String)
    (h : ∀ n, 0 ≤ s.rand n) :
    ((collect_readings fuel s u v).1.rand = s.rand ∧
     latestOf s m ≤ latestOf (collect_readings fuel s u v).1 m) := by
  unfold collect_readings
  split
  · exact ⟨rfl, le_rfl⟩
  · dsimp only
    rcases hcn : calculate_next_time s.clock u v with e | nt
    · simp only [hcn]
      exact ⟨trivial, le_rfl⟩
    · simp only [hcn]
      by_cases hu : u = "months"
      · rw [if_pos hu]
        exact monthsLoop_rand_latest fuel s s.clock nt s.accounts m h
      · rw [if_neg hu]
        exact generate_rand_latest fuel s s.clock nt s.accounts m h

theorem dlookup_dset_self (l : List ((Nat × Nat × Nat) × DailyFile))
    (k : Nat × Nat × Nat) (v : DailyFile) : dlookup (dset l k v) k = some v := by
  induction l with
  | nil => simp [dset, dlookup]
  | cons h t ih =>
    obtain ⟨a, b⟩ := h
    by_cases hk : a = k
    · subst hk
      simp [dset, dlookup]
    · simpa [dset, dlookup, hk] using ih

theorem dlookup_dset_ne (l : List ((Nat × Nat × Nat) × DailyFile))
    (k k' : Nat × Nat × Nat) (v : DailyFile) (hne : k' ≠ k) :
    dlookup (dset l k v) k' = dlookup l k' := by
  induction l with
  | nil => simp [dset, dlookup, Ne.symm hne]
  | cons h t ih =>
    obtain ⟨a, b⟩ := h
    by_cases hk : a = k
    · subst hk
      simp [dset, dlookup, Ne.symm hne]
    · by_cases hk' : a = k'
      · simp [dset, dlookup, hk, hk', hne]
      · simpa [dset, dlookup, hk, hk'] using ih

theorem alookup_append_single {β : Type} (l : List (String × β)) (k m : String)
    (v : β) :
    alookup (l ++ [(k, v)]) m =
      match alookup l m with
      | some w => some w
      | none => if k = m then some v else none := by
  induction l with
  | nil => simp [alookup]
  | cons h t ih =>
    obtain ⟨a, b⟩ := h
    by_cases ha : a = m
    · simp [alookup, ha]
    · simpa [alookup, ha] using ih

theorem alookup_eq_none_iff {β : Type} (l : List (String × β)) (k : String) :
    alookup l k = none ↔ k ∉ l.map Prod.fst := by
  induction l with
  | nil => simp [alookup]
  | cons h t ih =>
    obtain ⟨a, b⟩ := h
    by_cases ha : a = k
    · subst ha
      simp [alookup]
    · simp [alookup, ha, ih, Ne.symm ha]

theorem keys_aset_present {β : Type} (l : List (String × β)) (k : String) (v : β)
    (w : β) (h : alookup l k = some w) :
    (aset l k v).map Prod.fst = l.map Prod.fst := by
  induction l with
  | nil => simp [alookup] at h
  | cons p t ih =>
    obtain ⟨a, b⟩ := p
    by_cases ha : a = k
    · subst ha
      simp [aset]
    · simp only [alookup, if_neg ha] at h
      simp [aset, ha, ih h]

theorem keys_aset_new {β : Type} (l : List (String × β)) (k : String) (v : β)
    (h : alookup l k = none) :
    (aset l k v).map Prod.fst = l.map Prod.fst ++ [k] := by
  induction l with
  | nil => simp [aset]
  | cons p t ih =>
    obtain ⟨a, b⟩ := p
    by_cases ha : a = k
    · subst ha
      simp [alookup] at h
    · simp only [alookup, if_neg ha] at h
      simp [aset, ha, ih h]

theorem length_insertSorted {α : Type} (le : α → α → Bool) (x : α) :
    ∀ l : List α, (insertSorted le x l).length = l.length + 1 := by
  intro l
  induction l with
  | nil => rfl
  | cons y t ih =>
    rw [insertSorted]
    split
    · simp [ih]
    · simp

theorem length_sortBy {α : Type} (le : α → α → Bool) (l : List α) :
    (sortBy le l).length = l.length := by
  suffices h : ∀ (l : List α) (acc : List α),
      (l.foldl (fun a x => insertSorted le x a) acc).length = acc.length + l.length by
    simpa using h l []
  intro l
  induction l with
  | nil => intro acc; simp
  | cons y t ih =>
    intro acc
    rw [List.foldl_cons, ih]
    rw [length_insertSorted]
    simp [List.length_cons]
    omega

theorem sortBy_ne_nil {α : Type} (le : α → α → Bool) (l : List α) (h : l ≠ []) :
    sortBy le l ≠ [] := by
  intro hcon
  apply h
  have := length_sortBy le l
  rw [hcon] at this
  exact List.length_eq_zero.mp this.symm

theorem option_map_or {α β : Type} (a b : Option α) (f : α → β) :
    (a.map f).or (b.map f) = (a.or b).map f := by
  cases a <;> rfl

/-! ## The grouping fold of the daily commit -/

theorem buildFold_lookup (d : DateTime) :
    ∀ (cache : List MeterReading) (acc : DailyFile) (m : String),
      alookup (cache.foldl (buildStep d) acc) m =
        match alookup acc m with
        | some e => some ⟨e.date,
            e.readings ++ (cache.filter (fun r => r.meter_id == m)).map toTimedValue⟩
        | none =>
            if (cache.filter (fun r => r.meter_id == m)) = [] then none
            else some ⟨(d.year, d.month, d.day),
              (cache.filter (fun r => r.meter_id == m)).map toTimedValue⟩ := by
  intro cache
  induction cache with
  | nil =>
    intro acc m
    rcases h : alookup acc m with _ | e <;> simp [h]
  | cons r rest ih =>
    intro acc m
    rw [List.foldl_cons, ih (buildStep d acc r) m]
    by_cases hm : r.meter_id = m
    · subst hm
      rcases h : alookup acc r.meter_id with _ | e
      · have hacc : alookup (buildStep d acc r) r.meter_id
            = some ⟨(d.year, d.month, d.day), [toTimedValue r]⟩ := by
          simp [buildStep, h, alookup_append_single]
        rw [hacc]
        simp [List.filter_cons]
      · have hacc : alookup (buildStep d acc r) r.meter_id
            = some ⟨e.date, e.readings ++ [toTimedValue r]⟩ := by
          simp [buildStep, h, alookup_aset_self]
        rw [hacc]
        simp [List.filter_cons]
    · have hacc : alookup (buildStep d acc r) m = alookup acc m := by
        rcases h : alookup acc r.meter_id with _ | e
        · rcases h2 : alookup acc m with _ | w <;>
            simp [buildStep, h, alookup_append_single, h2, hm]
        · simp [buildStep, h, alookup_aset_ne _ _ _ _ (fun hh => hm hh.symm)]
      rw [hacc]
      have hf : (r :: rest).filter (fun r' => r'.meter_id == m)
          = rest.filter (fun r' => r'.meter_id == m) := by
        simp [List.filter_cons, hm]
      rw [hf]

/-! ## The first/last aggregation of the monthly archiver -/

theorem fileFold_lookup :
    ∀ (entries : DailyFile) (fl : (List (String × ℚ)) × (List (String × ℚ)))
      (meter : String),
      (entries.map Prod.fst).Nodup →
      (∀ e ∈ entries, e.2.readings ≠ []) →
      (alookup (entries.foldl entryStep fl).1 meter
        = (alookup fl.1 meter).or
            ((entryContribution entries meter).head?.map (fun tv => tv.value))) ∧
      (alookup (entries.foldl entryStep fl).2 meter
        = ((entryContribution entries meter).getLast?.map (fun tv => tv.value)).or
            (alookup fl.2 meter)) := by
  intro entries
  induction entries with
  | nil =>
    intro fl meter _ _
    simp [entryContribution, alookup, Option.or_none]
  | cons p rest ih =>
    intro fl meter hnd hne
    obtain ⟨k, e⟩ := p
    have hknotin : k ∉ rest.map Prod.fst := (List.nodup_cons.mp hnd).1
    have hndr : (rest.map Prod.fst).Nodup := (List.nodup_cons.mp hnd).2
    have hner : ∀ e' ∈ rest, e'.2.readings ≠ [] :=
      fun e' he' => hne e' (List.mem_cons_of_mem _ he')
    have hSne : sortBy timeLe e.readings ≠ [] :=
      sortBy_ne_nil timeLe e.readings (hne (k, e) (List.mem_cons_self _ _))
    rw [List.foldl_cons]
    have ih' := ih (entryStep fl (k, e)) meter hndr hner
    by_cases hm : k = meter
    · subst hm
      have hcr : entryContribution rest k = [] := by
        rw [entryContribution, (alookup_eq_none_iff rest k).mpr hknotin]
      have hck : entryContribution ((k, e) :: rest) k = sortBy timeLe e.readings := by
        simp [entryContribution, alookup]
      rcases hh : (sortBy timeLe e.readings).head? with _ | h0
      · exact absurd (List.head?_eq_none_iff.mp hh) hSne
      · rcases hl : (sortBy timeLe e.readings).getLast? with _ | l0
        · exact absurd (List.getLast?_eq_none_iff.mp hl) hSne
        · constructor
          · rw [ih'.1, hcr, hck, hh]
            rcases hf : alookup fl.1 k with _ | x
            · have heq : alookup (entryStep fl (k, e)).1 k
                  = some ((sortBy timeLe e.readings).headD ⟨0, 0, 0⟩).value := by
                simp [entryStep, hf, alookup_aset_self]
              rw [heq]
              simp [List.headD_eq_head?_getD, hh]
            · have heq : alookup (entryStep fl (k, e)).1 k = some x := by
                simp [entryStep, hf]
              rw [heq]
              simp
          · rw [ih'.2, hcr, hck, hl]
            have heq : alookup (entryStep fl (k, e)).2 k
                = some ((sortBy timeLe e.readings).getLastD ⟨0, 0, 0⟩).value := by
              rcases hf : alookup fl.1 k with _ | x <;>
                simp [entryStep, hf, alookup_aset_self]
            rw [heq]
            simp [List.getLastD_eq_getLast?, hl]
    · have hcm : entryContribution ((k, e) :: rest) meter
          = entryContribution rest meter := by
        simp [entryContribution, alookup, hm]
      have h1 : alookup (entryStep fl (k, e)).1 meter = alookup fl.1 meter := by
        rcases hf : alookup fl.1 k with _ | x
        · simp [entryStep, hf, alookup_aset_ne _ _ _ _ (fun hh => hm hh.symm)]
        · simp [entryStep, hf]
      have h2 : alookup (entryStep fl (k, e)).2 meter = alookup fl.2 meter := by
        simp [entryStep, alookup_aset_ne _ _ _ _ (fun hh => hm hh.symm)]
      rw [hcm]
      exact ⟨by rw [ih'.1, h1], by rw [ih'.2, h2]⟩

theorem collectFold_lookup :
    ∀ (files : List ((Nat × Nat × Nat) × DailyFile))
      (fl : (List (String × ℚ)) × (List (String × ℚ))) (meter : String),
      (∀ f ∈ files, (f.2.map Prod.fst).Nodup) →
      (∀ f ∈ files, ∀ e ∈ f.2, e.2.readings ≠ []) →
      (alookup (files.foldl (fun fl file => collectFirstLastFile fl file.2) fl).1 meter
        = (alookup fl.1 meter).or
            ((chronoOfFiles files meter).head?.map (fun tv => tv.value))) ∧
      (alookup (files.foldl (fun fl file => collectFirstLastFile fl file.2) fl).2 meter
        = ((chronoOfFiles files meter).getLast?.map (fun tv => tv.value)).or
            (alookup fl.2 meter)) := by
  intro files
  induction files with
  | nil =>
    intro fl meter _ _
    simp [chronoOfFiles, Option.or_none]
  | cons f rest ih =>
    intro fl meter hnd hne
    rw [List.foldl_cons]
    have hf1 := fileFold_lookup f.2 fl meter (hnd f (List.mem_cons_self _ _))
      (hne f (List.mem_cons_self _ _))
    have ih' := ih (collectFirstLastFile fl f.2) meter
      (fun g hg => hnd g (List.mem_cons_of_mem _ hg))
      (fun g hg => hne g (List.mem_cons_of_mem _ hg))
    have hchrono : chronoOfFiles (f :: rest) meter
        = entryContribution f.2 meter ++ chronoOfFiles rest meter := rfl
    have hc1 : alookup (collectFirstLastFile fl f.2).1 meter
        = (alookup fl.1 meter).or
            ((entryContribution f.2 meter).head?.map (fun tv => tv.value)) := hf1.1
    have hc2 : alookup (collectFirstLastFile fl f.2).2 meter
        = ((entryContribution f.2 meter).getLast?.map (fun tv => tv.value)).or
            (alookup fl.2 meter) := hf1.2
    constructor
    · rw [ih'.1, hc1, hchrono, List.head?_append, ← option_map_or, Option.or_assoc]
    · rw [ih'.2, hc2, hchrono, List.getLast?_append, ← option_map_or, Option.or_assoc]

theorem fileFold_keys_nodup :
    ∀ (entries : DailyFile) (fl : (List (String × ℚ)) × (List (String × ℚ))),
      (fl.1.map Prod.fst).Nodup →
      (((entries.foldl entryStep fl).1.map Prod.fst)).Nodup := by
  intro entries
  induction entries with
  | nil => intro fl h; exact h
  | cons p rest ih =>
    intro fl h
    rw [List.foldl_cons]
    apply ih
    rcases hf : alookup fl.1 p.1 with _ | x
    · have : (entryStep fl p).1 = aset fl.1 p.1
          ((sortBy timeLe p.2.readings).headD ⟨0, 0, 0⟩).value := by
        simp [entryStep, hf]
      rw [this, keys_aset_new _ _ _ hf]
      simp only [List.nodup_append, List.nodup_cons, List.nodup_nil]
      refine ⟨h, ⟨by simp, trivial⟩, ?_⟩
      intro a ha hb
      have : a = p.1 := by simpa using hb
      subst this
      exact (alookup_eq_none_iff fl.1 p.1).mp hf ha
    · have : (entryStep fl p).1 = fl.1 := by
        simp [entryStep, hf]
      rw [this]
      exact h

theorem collectFold_keys_nodup :
    ∀ (files : List ((Nat × Nat × Nat) × DailyFile))
      (fl : (List (String × ℚ)) × (List (String × ℚ))),
      (fl.1.map Prod.fst).Nodup →
      ((files.foldl (fun fl file => collectFirstLastFile fl file.2) fl).1.map
        Prod.fst).Nodup := by
  intro files
  induction files with
  | nil => intro fl h; exact h
  | cons f rest ih =>
    intro fl h
    rw [List.foldl_cons]
    exact ih _ (fileFold_keys_nodup f.2 fl h)

/-! ## The ledger-merge fold of the monthly archiver -/

theorem monthlyStep_other (lasts : List (String × ℚ)) (mk : Nat × Nat)
    (md : List (String × List ((Nat × Nat) × ℚ))) (p : String × ℚ)
    (meter : String) (ym : Nat × Nat) (hym : ym ≠ mk) :
    monthlyLookup (monthlyStep lasts mk md p) meter ym
      = monthlyLookup md meter ym := by
  rcases hl : alookup lasts p.1 with _ | lv
  · simp [monthlyStep, hl]
  · by_cases hm : p.1 = meter
    · subst hm
      simp only [monthlyStep, hl, monthlyLookup]
      rw [alookup_aset_self]
      dsimp only
      rw [mlookup_mset_ne _ _ _ _ hym]
      rcases hmd : alookup md p.1 with _ | mold
      · simp [mlookup]
      · simp
    · simp only [monthlyStep, hl, monthlyLookup]
      rw [alookup_aset_ne _ _ _ _ (fun hh => hm hh.symm)]

theorem monthlyFold_other (lasts : List (String × ℚ)) (mk : Nat × Nat) :
    ∀ (firsts : List (String × ℚ)) (md : List (String × List ((Nat × Nat) × ℚ)))
      (meter : String) (ym : Nat × Nat), ym ≠ mk →
      monthlyLookup (firsts.foldl (monthlyStep lasts mk) md) meter ym
        = monthlyLookup md meter ym := by
  intro firsts
  induction firsts with
  | nil => intro md meter ym _; rfl
  | cons p rest ih =>
    intro md meter ym hym
    rw [List.foldl_cons, ih _ meter ym hym, monthlyStep_other _ _ _ _ _ _ hym]

theorem monthlyStep_ne (lasts : List (String × ℚ)) (mk : Nat × Nat)
    (md : List (String × List ((Nat × Nat) × ℚ))) (p : String × ℚ)
    (meter : String) (hm : p.1 ≠ meter) (ym : Nat × Nat) :
    monthlyLookup (monthlyStep lasts mk md p) meter ym
      = monthlyLookup md meter ym := by
  rcases hl : alookup lasts p.1 with _ | lv
  · simp [monthlyStep, hl]
  · simp only [monthlyStep, hl, monthlyLookup]
    rw [alookup_aset_ne _ _ _ _ (fun hh => hm hh.symm)]

theorem monthlyFold_absent (lasts : List (String × ℚ)) (mk : Nat × Nat) :
    ∀ (firsts : List (String × ℚ)) (md : List (String × List ((Nat × Nat) × ℚ)))
      (meter : String), meter ∉ firsts.map Prod.fst → ∀ ym,
      monthlyLookup (firsts.foldl (monthlyStep lasts mk) md) meter ym
        = monthlyLookup md meter ym := by
  intro firsts
  induction firsts with
  | nil => intro md meter _ ym; rfl
  | cons p rest ih =>
    intro md meter hnotin ym
    have hm : p.1 ≠ meter := fun hh => hnotin (by simp [hh])
    have hrest : meter ∉ rest.map Prod.fst := fun hh => hnotin (by simp [hh])
    rw [List.foldl_cons, ih _ meter hrest ym, monthlyStep_ne _ _ _ _ _ hm]

theorem monthlyFold_value (lasts : List (String × ℚ)) (mk : Nat × Nat) :
    ∀ (firsts : List (String × ℚ)) (md : List (String × List ((Nat × Nat) × ℚ)))
      (meter : String) (fv lv : ℚ),
      (firsts.map Prod.fst).Nodup →
      alookup firsts meter = some fv →
      alookup lasts meter = some lv →
      monthlyLookup (firsts.foldl (monthlyStep lasts mk) md) meter mk
        = some (round3 (lv - fv)) := by
  intro firsts
  induction firsts with
  | nil => intro md meter fv lv _ hf _; simp [alookup] at hf
  | cons p rest ih =>
    intro md meter fv lv hnd hf hlast
    obtain ⟨k, v⟩ := p
    rw [List.foldl_cons]
    by_cases hm : k = meter
    · subst hm
      have hfv : v = fv := by simpa [alookup] using hf
      subst hfv
      have hknotin : k ∉ rest.map Prod.fst := (List.nodup_cons.mp hnd).1
      rw [monthlyFold_absent lasts mk rest _ k hknotin mk]
      simp only [monthlyStep, hlast, monthlyLookup]
      rw [alookup_aset_self]
      dsimp only
      rw [mlookup_mset_self]
    · have hf' : alookup rest meter = some fv := by
        simpa [alookup, hm] using hf
      exact ih _ meter fv lv (List.nodup_cons.mp hnd).2 hf' hlast

/-! ## Window exclusion for synthesized readings -/

theorem sampleFold_out (rt : DateTime) (accs : List Account) :
    ∀ (init : State × List MeterReading) (r : MeterReading),
      r ∈ (accs.foldl (sampleStep rt) init).2 → r ∈ init.2 ∨ r.reading_time = rt := by
  induction accs with
  | nil => intro init r hr; exact Or.inl hr
  | cons a t ih =>
    intro init r hr
    rw [List.foldl_cons] at hr
    rcases ih (sampleStep rt init a) r hr with h' | h'
    · rcases List.mem_append.mp h' with h'' | h''
      · exact Or.inl h''
      · right
        obtain rfl := List.mem_singleton.mp h''
        rfl
    · exact Or.inr h'

theorem sampleFold_cache (rt : DateTime) (accs : List Account) :
    ∀ (init : State × List MeterReading) (r : MeterReading),
      r ∈ (accs.foldl (sampleStep rt) init).1.daily_cache →
        r ∈ init.1.daily_cache ∨ r.reading_time = rt := by
  induction accs with
  | nil => intro init r hr; exact Or.inl hr
  | cons a t ih =>
    intro init r hr
    rw [List.foldl_cons] at hr
    rcases ih (sampleStep rt init a) r hr with h' | h'
    · rcases List.mem_append.mp h' with h'' | h''
      · exact Or.inl h''
      · right
        obtain rfl := List.mem_singleton.mp h''
        rfl
    · exact Or.inr h'

theorem cache_maintenance (s : State) (c : DateTime) :
    (maintenanceState s c).daily_cache = [] ∨
    (maintenanceState s c).daily_cache = s.daily_cache := by
  unfold maintenanceState
  dsimp only
  by_cases h2 : c.day = 1
  · rw [if_pos h2, cache_archive]
    by_cases h1 : dtLe epoch ⟨(addMinutesInt c (-1)).year, (addMinutesInt c (-1)).month,
        (addMinutesInt c (-1)).day, 0, 0⟩
    · rw [if_pos h1]
      exact cache_process _ _
    · rw [if_neg h1]
      exact Or.inr rfl
  · rw [if_neg h2]
    by_cases h1 : dtLe epoch ⟨(addMinutesInt c (-1)).year, (addMinutesInt c (-1)).month,
        (addMinutesInt c (-1)).day, 0, 0⟩
    · rw [if_pos h1]
      exact cache_process _ _
    · rw [if_neg h1]
      exact Or.inr rfl

theorem genLoop_window (fuel : Nat) :
    ∀ (s : State) (current next : DateTime) (accs : List Account),
      (∀ r ∈ (genLoop fuel s current next accs).2, r.reading_time.hour ≠ 0) ∧
      (∀ r ∈ (genLoop fuel s current next accs).1.daily_cache,
        r ∈ s.daily_cache ∨ r.reading_time.hour ≠ 0) := by
  induction fuel with
  | zero =>
    intro s c n a
    exact ⟨by simp [genLoop], fun r hr => Or.inl hr⟩
  | succ fuel ih =>
    intro s c n a
    rw [genLoop]
    split
    · exact ⟨by simp, fun r hr => Or.inl hr⟩
    split
    · have ihm := ih (maintenanceState s c) { c with hour := 1 } n a
      refine ⟨ihm.1, fun r hr => ?_⟩
      rcases ihm.2 r hr with hc | h0
      · rcases cache_maintenance s c with he | he
        · rw [he] at hc
          exact absurd hc (List.not_mem_nil r)
        · rw [he] at hc
          exact Or.inl hc
      · exact Or.inr h0
    dsimp only
    split
    · exact ⟨by simp, fun r hr => Or.inl hr⟩
    · next hcond =>
      have hhour : (addMinutesInt c 30).hour ≠ 0 := by
        push_neg at hcond
        exact hcond.2
      have ihs := ih (sampleAccounts (addMinutesInt c 30) s a).1 (addMinutesInt c 30) n a
      constructor
      · intro r hr
        rcases List.mem_append.mp hr with h' | h'
        · rcases sampleFold_out (addMinutesInt c 30) a (s, []) r h' with h'' | h''
          · exact absurd h'' (List.not_mem_nil r)
          · rw [h'']
            exact hhour
        · exact ihs.1 r h'
      · intro r hr
        rcases ihs.2 r hr with h' | h'
        · rcases sampleFold_cache (addMinutesInt c 30) a (s, []) r h' with h'' | h''
          · exact Or.inl h''
          · right
            rw [h'']
            exact hhour
        · exact Or.inr h'

theorem one_day_window (fuel : Nat) (s : State) (a b : DateTime)
    (accs : List Account) :
    (∀ r ∈ (generate_one_day fuel s a b accs).2, r.reading_time.hour ≠ 0) ∧
    (∀ r ∈ (generate_one_day fuel s a b accs).1.daily_cache,
      r ∈ s.daily_cache ∨ r.reading_time.hour ≠ 0) := by
  unfold generate_one_day
  dsimp only
  have hg := genLoop_window fuel s (floorHour a) b accs
  split
  · refine ⟨hg.1, fun r hr => ?_⟩
    rcases cache_process (genLoop fuel s (floorHour a) b accs).1 _ with he | he
    · rw [he] at hr
      exact absurd hr (List.not_mem_nil r)
    · rw [he] at hr
      exact hg.2 r hr
  · exact hg

theorem splitLoop_window (fuel : Nat) :
    ∀ (s : State) (a b : DateTime) (accs : List Account),
      (∀ r ∈ (splitLoop fuel s a b accs).2, r.reading_time.hour ≠ 0) ∧
      (∀ r ∈ (splitLoop fuel s a b accs).1.daily_cache,
        r ∈ s.daily_cache ∨ r.reading_time.hour ≠ 0) := by
  induction fuel with
  | zero =>
    intro s a b accs
    exact ⟨by simp [splitLoop], fun r hr => Or.inl hr⟩
  | succ fuel ih =>
    intro s a b accs
    rw [splitLoop]
    split
    · dsimp only
      have h1 := one_day_window fuel s a (dtMin (addMinutesInt a 1440) b) accs
      have ih' := ih (generate_one_day fuel s a (dtMin (addMinutesInt a 1440) b) accs).1
        (addMinutesInt a 1440) b accs
      constructor
      · intro r hr
        rcases List.mem_append.mp hr with h' | h'
        · exact h1.1 r h'
        · exact ih'.1 r h'
      · intro r hr
        rcases ih'.2 r hr with h' | h'
        · exact h1.2 r h'
        · exact Or.inr h'
    · exact ⟨by simp, fun r hr => Or.inl hr⟩

theorem generate_window (fuel : Nat) (s : State) (a b : DateTime)
    (accs : List Account) :
    (∀ r ∈ (generate_readings fuel s a b accs).2, r.reading_time.hour ≠ 0) ∧
    (∀ r ∈ (generate_readings fuel s a b accs).1.daily_cache,
      r ∈ s.daily_cache ∨ r.reading_time.hour ≠ 0) := by
  unfold generate_readings
  split
  · exact splitLoop_window fuel s a b accs
  · exact one_day_window fuel s a b accs

theorem monthsLoop_window (fuel : Nat) :
    ∀ (s : State) (a b : DateTime) (accs : List Account),
      (∀ r ∈ (monthsLoop fuel s a b accs).2, r.reading_time.hour ≠ 0) ∧
      (∀ r ∈ (monthsLoop fuel s a b accs).1.daily_cache,
        r ∈ s.daily_cache ∨ r.reading_time.hour ≠ 0) := by
  induction fuel with
  | zero =>
    intro s a b accs
    exact ⟨by simp [monthsLoop], fun r hr => Or.inl hr⟩
  | succ fuel ih =>
    intro s a b accs
    rw [monthsLoop]
    split
    · dsimp only
      have h1 := generate_window fuel s a (dtMin (addMinutesInt a 1440) b) accs
      have ih' := ih (generate_readings fuel s a (dtMin (addMinutesInt a 1440) b) accs).1
        (addMinutesInt a 1440) b accs
      constructor
      · intro r hr
        rcases List.mem_append.mp hr with h' | h'
        · exact h1.1 r h'
        · exact ih'.1 r h'
      · intro r hr
        rcases ih'.2 r hr with h' | h'
        · exact h1.2 r h'
        · exact Or.inr h'
    · exact ⟨by simp, fun r hr => Or.inl hr⟩

theorem collect_window (fuel : Nat) (s : State) (u : String) (v : Int) :
    (∀ r ∈ (collect_readings fuel s u v).1.daily_cache,
      r ∈ s.daily_cache ∨ r.reading_time.hour ≠ 0) ∧
    (∀ res, (collect_readings fuel s u v).2 = .ok res →
      ∀ r ∈ res.sample_readings, r.reading_time.hour ≠ 0) := by
  unfold collect_readings
  split
  · refine ⟨fun r hr => Or.inl hr, fun res hres => ?_⟩
    exact absurd hres (by simp)
  · dsimp only
    rcases hcn : calculate_next_time s.clock u v with e | nt
    · simp only [hcn]
      refine ⟨fun r hr => Or.inl hr, fun res hres => ?_⟩
      exact absurd hres (by simp)
    · simp only [hcn]
      by_cases hu : u = "months"
      · rw [if_pos hu]
        have h1 := monthsLoop_window fuel s s.clock nt s.accounts
        refine ⟨h1.2, fun res hres r hr => ?_⟩
        have h2 := (Except.ok.injEq _ _).mp hres
        rw [← h2] at hr
        exact h1.1 r ((List.take_sublist _ _).subset hr)
      · rw [if_neg hu]
        have h1 := generate_window fuel s s.clock nt s.accounts
        refine ⟨h1.2, fun res hres r hr => ?_⟩
        have h2 := (Except.ok.injEq _ _).mp hres
        rw [← h2] at hr
        exact h1.1 r ((List.take_sublist _ _).subset hr)

/-! ## C1: the one-day scenario from the epoch -/

/-- C1 counterexample: with exactly one registered meter, advancing by one
day from the epoch does not produce 46 readings as claimed: readings_count
is 45 (the sampling loop resumes at 01:00 after the maintenance window and
its first emitted reading is at 01:30, so the 01:00 slot never appears). -/
theorem c1_counterexample :
    ¬ ((collect_readings 100 regState "days" 1).2.toOption.map
        (fun r => r.readings_count) = some 46) := by
  decide

/-- C1 (amended): for an advance of one day from the epoch 2024-05-01T00:00
with exactly one registered meter, the result has new_time 2024-05-02T00:00
and readings_count 45: a full day contributes the 45 slots 01:30 to 23:30,
the maintenance window [00:00, 01:00) contributes none and the 01:00 slot
immediately after it is also skipped. -/
theorem c1_scenario :
    (collect_readings 100 regState "days" 1).2.toOption.map
      (fun r => (r.readings_count, r.new_time)) = some (45, ⟨2024, 5, 2, 0, 0⟩) := by
  decide

/-! ## C2: readings inside the maintenance window -/

/-- C2 counterexample: registering meter A at the epoch emits an initial
zero reading stamped 2024-05-01T00:00, whose time of day lies in the
maintenance window [00:00, 01:00); after a one-day advance that reading is
archived with time of day 00:00, so a Reading (both pending and archived)
with time of day inside the window does exist. -/
theorem c2_counterexample :
    (regState.daily_cache.any (fun r => r.reading_time.hour == 0)) = true ∧
    ((collect_readings 100 regState "days" 1).1.dailyArchive.any
      (fun e => e.2.any (fun me => me.2.readings.any (fun tv => tv.hour == 0)))) = true := by
  constructor
  · decide
  · decide

/-- C2 (amended): every reading emitted by the generation loop has
time-of-day outside the maintenance window (no emitted reading has hour 0),
and after generation — likewise after a whole collect_readings advance —
the pending cache holds only pre-existing entries or window-free readings;
the sample readings returned by a successful advance are window-free too.
The initial zero reading of register_meter is the exception the
counterexample exhibits: it may lie inside the window. -/
theorem c2_window_exclusion (fuel : Nat) (s : State) (a b : DateTime)
    (accs : List Account) (u : String) (v : Int) :
    ((generate_readings fuel s a b accs).2.all
        (fun r => r.reading_time.hour != 0) = true) ∧
    ((generate_readings fuel s a b accs).1.daily_cache.all
        (fun r => decide (r ∈ s.daily_cache) || r.reading_time.hour != 0) = true) ∧
    ((collect_readings fuel s u v).1.daily_cache.all
        (fun r => decide (r ∈ s.daily_cache) || r.reading_time.hour != 0) = true) ∧
    (((collect_readings fuel s u v).2.toOption.map
        (fun res => res.sample_readings.all (fun r => r.reading_time.hour != 0))).getD
      true = true) := by
  have hg := generate_window fuel s a b accs
  have hc := collect_window fuel s u v
  refine ⟨?_, ?_, ?_, ?_⟩
  · rw [List.all_eq_true]
    intro r hr
    simpa using hg.1 r hr
  · rw [List.all_eq_true]
    intro r hr
    rcases hg.2 r hr with h' | h'
    · simp [h']
    · simp [h']
  · rw [List.all_eq_true]
    intro r hr
    rcases hc.1 r hr with h' | h'
    · simp [h']
    · simp [h']
  · rcases hres : (collect_readings fuel s u v).2 with e | res
    · simp [Except.toOption]
    · show res.sample_readings.all (fun r => r.reading_time.hour != 0) = true
      rw [List.all_eq_true]
      intro r hr
      simpa using hc.2 res hres r hr

/-! ## C3: the daily commit and the externally supplied date -/

/-- C3 counterexample: a pending cache holding readings of 2024-05-01 and of
2024-05-02 is committed by _process_daily_data under the single supplied
date 2024-05-09: the result is one single archive file, keyed by the
supplied date (not by the two days derived from the readings), holding both
readings, of which only the times of day survive. -/
theorem c3_counterexample :
    ((process_daily_data c3state ⟨2024, 5, 9, 23, 59⟩).dailyArchive.map Prod.fst
      = [(2024, 5, 9)]) ∧
    ((dlookup (process_daily_data c3state ⟨2024, 5, 9, 23, 59⟩).dailyArchive
        (2024, 5, 9)).map (fun f => f.map (fun me => (me.1, me.2.date)))
      = some [("A", (2024, 5, 9))]) ∧
    ((dlookup (process_daily_data c3state ⟨2024, 5, 9, 23, 59⟩).dailyArchive
        (2024, 5, 9)).map (fun f => f.map
          (fun me => me.2.readings.map (fun tv => (tv.hour, tv.minute))))
      = some [[(10, 30), (11, 0)]]) ∧
    (process_daily_data c3state ⟨2024, 5, 9, 23, 59⟩).daily_cache = [] := by
  refine ⟨by decide, by decide, by decide, by decide⟩

/-- C3 (amended): the daily commit with a nonempty pending cache archives
the entire cache — whatever days its readings carry — as the one file keyed
by the supplied date, and clears the cache: afterwards every other archive
key is untouched, the file under the supplied date is exactly the cache
grouped by meter, and each meter's object holds the supplied date plus, in
cache order, the meter's readings reduced to time of day and rounded
value. -/
theorem c3_commit_by_supplied_date (s : State) (d : DateTime)
    (hne : s.daily_cache ≠ []) :
    ((process_daily_data s d).daily_cache = []) ∧
    (∀ k, k ≠ (d.year, d.month, d.day) →
      dlookup (process_daily_data s d).dailyArchive k = dlookup s.dailyArchive k) ∧
    (dlookup (process_daily_data s d).dailyArchive (d.year, d.month, d.day)
      = some (buildDaily s.daily_cache d)) ∧
    (∀ m, alookup (buildDaily s.daily_cache d) m =
      if (s.daily_cache.filter (fun r => r.meter_id == m)) = [] then none
      else some ⟨(d.year, d.month, d.day),
        (s.daily_cache.filter (fun r => r.meter_id == m)).map toTimedValue⟩) := by
  unfold process_daily_data
  rw [if_neg hne]
  refine ⟨rfl, ?_, ?_, ?_⟩
  · intro k hk
    exact dlookup_dset_ne _ _ _ _ hk
  · exact dlookup_dset_self _ _ _
  · intro m
    have hb := buildFold_lookup d s.daily_cache [] m
    simpa [buildDaily, alookup] using hb

/-- C3 witness: committing the two-day cache of c3state clears it and
leaves the archive untouched at a key other than the supplied date. -/
theorem c3_witness :
    ((process_daily_data c3state ⟨2024, 5, 9, 23, 59⟩).daily_cache = []) ∧
    (dlookup (process_daily_data c3state ⟨2024, 5, 9, 23, 59⟩).dailyArchive
        (2024, 5, 2)
      = dlookup c3state.dailyArchive (2024, 5, 2)) :=
  ⟨(c3_commit_by_supplied_date c3state ⟨2024, 5, 9, 23, 59⟩ (by decide)).1,
   (c3_commit_by_supplied_date c3state ⟨2024, 5, 9, 23, 59⟩ (by decide)).2.1
     (2024, 5, 2) (by decide)⟩

/-! ## C4: monthly rollup -/

/-- C4: when the monthly archiver runs with its horizon month at or after
the epoch month, then (a) every ledger entry of any meter under any month
other than the horizon month is preserved unchanged, and (b) every meter
with readings in the horizon month gets, under (meter, horizon month), the
chronologically-last reading of that month minus the chronologically-first,
rounded to 3 decimals.  The side conditions state what every file the
system writes satisfies: meter keys unique within a file and no meter
object with an empty readings list. -/
theorem c4_monthly_rollup (s : State) (cd : DateTime)
    (hg : dtLt (month_to_process_of cd) epoch = false)
    (hnodup : ∀ f ∈ monthFiles s.dailyArchive (month_to_process_of cd).year
        (month_to_process_of cd).month, (f.2.map Prod.fst).Nodup)
    (hne : ∀ f ∈ monthFiles s.dailyArchive (month_to_process_of cd).year
        (month_to_process_of cd).month, ∀ e ∈ f.2, e.2.readings ≠ []) :
    (∀ meter ym, ym ≠ ((month_to_process_of cd).year, (month_to_process_of cd).month) →
      monthlyLookup (archive_and_prepare_monthly_data s cd).monthlyData meter ym
        = monthlyLookup s.monthlyData meter ym) ∧
    (∀ meter,
      monthReadingsOf s.dailyArchive (month_to_process_of cd).year
          (month_to_process_of cd).month meter ≠ [] →
      monthlyLookup (archive_and_prepare_monthly_data s cd).monthlyData meter
          ((month_to_process_of cd).year, (month_to_process_of cd).month)
        = some (round3
            (((monthReadingsOf s.dailyArchive (month_to_process_of cd).year
                (month_to_process_of cd).month meter).getLastD ⟨0, 0, 0⟩).value
             - ((monthReadingsOf s.dailyArchive (month_to_process_of cd).year
                (month_to_process_of cd).month meter).headD ⟨0, 0, 0⟩).value))) := by
  set F := monthFiles s.dailyArchive (month_to_process_of cd).year
    (month_to_process_of cd).month with hF
  have harch : (archive_and_prepare_monthly_data s cd).monthlyData
      = (collectFirstLast F).1.foldl
          (monthlyStep (collectFirstLast F).2
            ((month_to_process_of cd).year, (month_to_process_of cd).month))
          s.monthlyData := by
    unfold archive_and_prepare_monthly_data
    rw [if_neg (by simp [hg])]
    rfl
  constructor
  · intro meter ym hym
    rw [harch]
    exact monthlyFold_other _ _ _ _ meter ym hym
  · intro meter hchne
    rw [harch]
    have hcf := collectFold_lookup F ([], []) meter hnodup hne
    have hfst : alookup (collectFirstLast F).1 meter
        = (chronoOfFiles F meter).head?.map (fun tv => tv.value) := by
      have h := hcf.1
      simpa [collectFirstLast, alookup] using h
    have hlst : alookup (collectFirstLast F).2 meter
        = (chronoOfFiles F meter).getLast?.map (fun tv => tv.value) := by
      have h := hcf.2
      simpa [collectFirstLast, alookup, Option.or_none] using h
    have hch : monthReadingsOf s.dailyArchive (month_to_process_of cd).year
        (month_to_process_of cd).month meter = chronoOfFiles F meter := rfl
    rw [hch] at hchne
    rcases hh : (chronoOfFiles F meter).head? with _ | h0
    · exact absurd (List.head?_eq_none_iff.mp hh) hchne
    rcases hl : (chronoOfFiles F meter).getLast? with _ | l0
    · exact absurd (List.getLast?_eq_none_iff.mp hl) hchne
    have h1 : alookup (collectFirstLast F).1 meter = some h0.value := by
      rw [hfst, hh]
      rfl
    have h2 : alookup (collectFirstLast F).2 meter = some l0.value := by
      rw [hlst, hl]
      rfl
    have hnd := collectFold_keys_nodup F ([], []) (by simp)
    have hval := monthlyFold_value (collectFirstLast F).2
      ((month_to_process_of cd).year, (month_to_process_of cd).month)
      (collectFirstLast F).1 s.monthlyData meter h0.value l0.value hnd h1 h2
    rw [hval, hch]
    rw [List.getLastD_eq_getLast?, List.headD_eq_head?_getD, hh, hl]
    rfl

/-- A state carrying synthetic daily archives for 2024-05 with meter X's
chronologically-first value 10.0 (on 2024-05-03 at 01:30) and last value
25.5 (on 2024-05-20 at 23:30), plus a pre-existing ledger entry for
(X, 2024-04). -/
def c4state : State :=
  { initState halfOracle with
    dailyArchive :=
      [((2024, 5, 3), [("X", ⟨(2024, 5, 3), [⟨1, 30, 10⟩]⟩)]),
       ((2024, 5, 20), [("X", ⟨(2024, 5, 20), [⟨23, 30, 51 / 2⟩]⟩)])],
    monthlyData := [("X", [((2024, 4), 7)])] }

/-- C4 witness: running the archiver at 2024-07-01 over c4state (horizon
month 2024-05) preserves the (X, 2024-04) entry and records for
(X, 2024-05) the last minus first chronological value of the month, rounded
to 3 decimals. -/
theorem c4_witness :
    (monthlyLookup (archive_and_prepare_monthly_data c4state
        ⟨2024, 7, 1, 0, 0⟩).monthlyData "X" (2024, 4)
      = monthlyLookup c4state.monthlyData "X" (2024, 4)) ∧
    (monthlyLookup (archive_and_prepare_monthly_data c4state
        ⟨2024, 7, 1, 0, 0⟩).monthlyData "X"
        ((month_to_process_of ⟨2024, 7, 1, 0, 0⟩).year,
         (month_to_process_of ⟨2024, 7, 1, 0, 0⟩).month)
      = some (round3
          (((monthReadingsOf c4state.dailyArchive
              (month_to_process_of ⟨2024, 7, 1, 0, 0⟩).year
              (month_to_process_of ⟨2024, 7, 1, 0, 0⟩).month "X").getLastD
              ⟨0, 0, 0⟩).value
           - ((monthReadingsOf c4state.dailyArchive
              (month_to_process_of ⟨2024, 7, 1, 0, 0⟩).year
              (month_to_process_of ⟨2024, 7, 1, 0, 0⟩).month "X").headD
              ⟨0, 0, 0⟩).value))) :=
  ⟨(c4_monthly_rollup c4state ⟨2024, 7, 1, 0, 0⟩ (by decide) (by decide)
      (by decide)).1 "X" (2024, 4) (by decide),
   (c4_monthly_rollup c4state ⟨2024, 7, 1, 0, 0⟩ (by decide) (by decide)
      (by decide)).2 "X" (by decide)⟩

/-! ## C5: the two-month retention bound -/

set_option maxRecDepth 40000 in
/-- C5: after the advance sequence of c5ops — every month crossing made with
a simulated clock at 23:30, so the generation loop never lands on a day-1
midnight and the monthly archiver with its retention pruning never runs —
the daily archive holds files of the three distinct months 2024-05, 2024-06
and 2024-07, violating the two-month retention bound. -/
theorem c5_retention_violated :
    ((c5state.dailyArchive.map (fun e => (e.1.1, e.1.2.1))).dedup
      = [(2024, 5), (2024, 6), (2024, 7)]) ∧
    ¬ ((c5state.dailyArchive.map (fun e => (e.1.1, e.1.2.1))).dedup.length ≤ 2) := by
  constructor
  · decide
  · decide

/-! ## C7: month-unit advances clamp to the last valid day -/

/-- C7: a months advance by v lands exactly v calendar months later (as a
month index 12 year + month), on the same day of month clamped to the last
valid day of the target month, with hour and minute preserved. -/
theorem c7_months_clamp (t : DateTime) (v : Nat) (hm : 1 ≤ t.month) :
    ∃ u, calculate_next_time t "months" (v : Int) = .ok u ∧
      12 * u.year + u.month = 12 * t.year + t.month + v ∧
      u.day = min t.day (daysInMonth u.year u.month) ∧
      u.hour = t.hour ∧ u.minute = t.minute := by
  unfold calculate_next_time
  rw [if_neg (by decide), if_neg (by decide), if_neg (by decide), if_pos rfl]
  refine ⟨_, rfl, ?_, rfl, rfl, rfl⟩
  dsimp only
  have h0 : (0 : Int) ≤ (t.month : Int) + (v : Int) - 1 := by omega
  have hq := Int.fdiv_nonneg h0 (by norm_num : (0 : Int) ≤ 12)
  have hr0 := Int.fmod_nonneg' ((t.month : Int) + (v : Int) - 1)
    (by norm_num : (0 : Int) < 12)
  have hr12 := Int.fmod_lt_of_pos ((t.month : Int) + (v : Int) - 1)
    (by norm_num : (0 : Int) < 12)
  have hdm := Int.fdiv_add_fmod ((t.month : Int) + (v : Int) - 1) 12
  omega

/-- C7 witness: from 2024-05-31T00:00, one month ahead is 2024-06-30T00:00
(June has 30 days). -/
theorem c7_witness :
    (calculate_next_time ⟨2024, 5, 31, 0, 0⟩ "months" ((1 : Nat) : Int)).toOption
      = some ⟨2024, 6, 30, 0, 0⟩ ∧
    (∃ u, calculate_next_time ⟨2024, 5, 31, 0, 0⟩ "months" ((1 : Nat) : Int) = .ok u ∧
      12 * u.year + u.month = 12 * 2024 + 5 + 1 ∧
      u.day = min 31 (daysInMonth u.year u.month) ∧
      u.hour = 0 ∧ u.minute = 0) :=
  ⟨by decide, c7_months_clamp ⟨2024, 5, 31, 0, 0⟩ 1 (by decide)⟩

/-! ## C8: validation failures leave the state untouched -/

/-- C8: an advance that fails validation mutates nothing: with no registered
accounts collect_readings returns the NoAccounts error and the state
(clock, archives, latest values, pending cache) exactly as given; with an
unrecognized unit it returns the InvalidUnit error and the unchanged state;
and in general every error return leaves the state exactly as given. -/
theorem c8_validation_no_mutation (fuel : Nat) (s : State) (unit : String) (v : Int) :
    (s.accounts = [] →
      collect_readings fuel s unit v = (s, .error .NoAccounts)) ∧
    (s.accounts ≠ [] → unit ≠ "minutes" → unit ≠ "hours" → unit ≠ "days" →
      unit ≠ "months" →
      collect_readings fuel s unit v = (s, .error .InvalidUnit)) ∧
    (∀ e : Err, (collect_readings fuel s unit v).2 = .error e →
      (collect_readings fuel s unit v).1 = s) := by
  refine ⟨?_, ?_, ?_⟩
  · intro h
    simp [collect_readings, h]
  · intro h h1 h2 h3 h4
    simp [collect_readings, h, calculate_next_time, h1, h2, h3, h4]
  · intro e he
    by_cases h : s.accounts = []
    · simp [collect_readings, h]
    · rcases hcn : calculate_next_time s.clock unit v with e' | nt
      · simp [collect_readings, h, hcn]
      · exfalso
        simp [collect_readings, h, hcn] at he

/-- C8 witness: a fresh system rejects an advance with NoAccounts leaving
the state as is, and a system with one meter rejects the unit weeks with
InvalidUnit leaving the state as is. -/
theorem c8_witness :
    collect_readings 5 (initState halfOracle) "days" 1
      = (initState halfOracle, .error .NoAccounts) ∧
    collect_readings 5 regState "weeks" 1 = (regState, .error .InvalidUnit) :=
  ⟨(c8_validation_no_mutation 5 (initState halfOracle) "days" 1).1 rfl,
   (c8_validation_no_mutation 5 regState "weeks" 1).2.1 (by decide) (by decide)
     (by decide) (by decide) (by decide)⟩

/-! ## C9: non-positive advance amounts -/

/-- C9 counterexample: the advance amount -1 (non-positive) is not rejected:
collect_readings succeeds with it, and it does mutate state: the persisted
clock moves backward from the epoch to 2024-04-30T00:00. -/
theorem c9_counterexample :
    (collect_readings 100 regState "days" (-1)).2.isOk = true ∧
    (collect_readings 100 regState "days" (-1)).1.clock = ⟨2024, 4, 30, 0, 0⟩ ∧
    regState.clock = epoch := by
  refine ⟨by decide, by decide, by decide⟩

/-- C9 (amended): only non-numeric advance amounts are rejected (by the
route layer, before reaching the core); a non-positive integer amount is
accepted and processed: the advance succeeds and persists the computed
clock, which for days v is the old clock plus 1440 v minutes (backward for
negative v, unchanged for v = 0). -/
theorem c9_nonpositive_accepted (fuel : Nat) (s : State) (v : Int)
    (hacc : s.accounts ≠ []) (hv : v ≤ 0) :
    ((collect_readings fuel s "days" v).2.isOk = true) ∧
    ((collect_readings fuel s "days" v).1.clock = addMinutesInt s.clock (1440 * v)) := by
  simp [collect_readings, hacc, calculate_next_time, Except.isOk, Except.toBool]

/-- C9 witness: with one registered meter the non-positive amount 0 is
accepted and the clock stays put. -/
theorem c9_witness :
    ((collect_readings 100 regState "days" (0 : Int)).2.isOk = true) ∧
    ((collect_readings 100 regState "days" (0 : Int)).1.clock
      = addMinutesInt regState.clock (1440 * 0)) :=
  c9_nonpositive_accepted 100 regState 0 (by decide) (by decide)

/-! ## C6: the latest value of every meter is non-decreasing across advances -/

/-- C6: for every meter m and every sequence of advance calls (no reset in
between), LatestValue of m — the value latest_readings.get(m, 0) the
synthesizer itself uses — is non-decreasing, provided every drawn increment
is non-negative (random.uniform(0, 1) draws from [0, 1]); moreover each
single sampling step writes a value at least as large as the previous one,
and advances never change the random oracle. -/
theorem c6_latest_monotone (fuel : Nat) (s : State) (ops : List (String × Int))
    (m : String) (h : ∀ n, 0 ≤ s.rand n) :
    (latestOf s m ≤ latestOf (advanceOps fuel s ops) m) ∧
    ((advanceOps fuel s ops).rand = s.rand) ∧
    (∀ rt account, latestOf s account.meter_ID
      ≤ latestOf (meterStep rt s account).1 account.meter_ID) := by
  induction ops generalizing s with
  | nil =>
    exact ⟨le_rfl, rfl, fun rt a => meterStep_latest_mono rt s a _ (h _)⟩
  | cons op t ih =>
    have h1 := collect_rand_latest fuel s op.1 op.2 m h
    have ih' := ih (collect_readings fuel s op.1 op.2).1
      (fun n => by rw [h1.1]; exact h n)
    refine ⟨?_, ?_, fun rt a => meterStep_latest_mono rt s a _ (h _)⟩
    · simp only [advanceOps, List.foldl_cons]
      exact le_trans h1.2 ih'.1
    · simp only [advanceOps, List.foldl_cons]
      have := ih'.2.1
      simp only [advanceOps] at this
      rw [this, h1.1]

/-- C6 witness: one registered meter, one one-day advance from the epoch,
with the concrete all-1/2 oracle. -/
theorem c6_witness :
    (latestOf regState "A" ≤ latestOf (advanceOps 100 regState [("days", 1)]) "A") ∧
    ((advanceOps 100 regState [("days", 1)]).rand = regState.rand) ∧
    (∀ rt account, latestOf regState account.meter_ID
      ≤ latestOf (meterStep rt regState account).1 account.meter_ID) :=
  c6_latest_monotone 100 regState [("days", 1)] "A"
    (fun _ => by show (0 : ℚ) ≤ 1 / 2; norm_num)

/-! ## C10: a meter missing from latest_readings restarts from zero -/

/-- C10: when a registered meter is absent from the in-memory latest value
map (e.g. after a restart), the sampling step uses 0 as the previous value:
the emitted reading is exactly the rounded drawn increment, the stored
latest value is exactly the increment, and the emitted value is independent
of whatever the daily archive or the monthly ledger holds for that meter. -/
theorem c10_missing_latest_defaults_zero (st : State) (rt : DateTime)
    (account : Account)
    (h : alookup st.latest_readings account.meter_ID = none) :
    ((meterStep rt st account).2.meter_value = round3 (st.rand st.randIdx)) ∧
    (alookup (meterStep rt st account).1.latest_readings account.meter_ID
      = some (st.rand st.randIdx)) ∧
    (∀ archive monthly,
      (meterStep rt { st with dailyArchive := archive, monthlyData := monthly }
        account).2.meter_value = (meterStep rt st account).2.meter_value) := by
  refine ⟨?_, ?_, ?_⟩
  · simp [meterStep, h]
  · simp [meterStep, h, alookup_aset_self]
  · intro archive monthly
    rfl

/-- C10 witness: in c10state, meter B is absent from the latest value map
and its first sampled reading is exactly the drawn increment. -/
theorem c10_witness :
    (((meterStep epoch c10state ⟨"B", "a", "d", epoch⟩).2.meter_value
      = round3 (c10state.rand c10state.randIdx)) ∧
    (alookup (meterStep epoch c10state ⟨"B", "a", "d", epoch⟩).1.latest_readings
      (Account.meter_ID ⟨"B", "a", "d", epoch⟩)
      = some (c10state.rand c10state.randIdx)) ∧
    (∀ archive monthly,
      (meterStep epoch { c10state with dailyArchive := archive, monthlyData := monthly }
        ⟨"B", "a", "d", epoch⟩).2.meter_value
        = (meterStep epoch c10state ⟨"B", "a", "d", epoch⟩).2.meter_value)) :=
  c10_missing_latest_defaults_zero c10state epoch ⟨"B", "a", "d", epoch⟩ (by decide)

end SmartMeter
